import Mathlib

/-!
Shallow embedding of the thread-reconstruction core of `src/fetch_emails.py`,
together with proofs checking the natural-language specification against it.

Modelling conventions:
* A Python message dict (`email_data`) is a `Msg` record carrying the fields the
  Builder reads: `id` (the stripped Message-ID, `none` for Python `None`),
  `in_reply_to` (the stripped In-Reply-To header, `none` for Python `None`) and
  `date` (`none` when the timestamp is missing; otherwise an abstract
  totally-ordered timestamp modelled as `Nat`, standing for the `datetime` /
  ISO-string values the script sorts by).
* Python dicts are mutable objects with identity; the records handed to
  `build_email_tree` are therefore tracked by their position in the input list,
  and the mutation of each record's `children` list is returned explicitly as a
  positional table (`BuildResult.children`) next to the root list.
* Python's `sort` raises `TypeError` as soon as it compares `None` with a
  value; any list of length ≥ 2 containing an element with a `None` key makes
  CPython's sort perform such a comparison (adjacent elements are always
  compared), so the sort is embedded as an `Except` value that errors exactly
  in that case and otherwise returns the stable ascending reordering (the
  output of any stable sort is uniquely determined, so Timsort is embedded by
  insertion sort).
-/

/-- One message record as assembled in `main` and consumed by
`build_email_tree` (fields `id`, `in_reply_to`, `date` of the Python dict). -/
structure Msg where
  id : Option String
  in_reply_to : Option String
  date : Option Nat
deriving DecidableEq, Repr

/-- `messages_map = {m['id']: m for m in messages}` with a string key `p`:
the index of the record the dict lookup returns, i.e. the last record whose
`id` equals `p` (later dict insertions overwrite earlier ones). -/
def lastIdx (p : String) : List Msg → Option Nat
  | [] => none
  | m :: ms =>
    match lastIdx p ms with
    | some j => some (j + 1)
    | none => if m.id = some p then some 0 else none

/-- Where the placement loop of `build_email_tree` puts one record:
`some j` means appended to the `children` of the record at index `j`
(`if parent_id and parent_id in messages_map`), `none` means appended to
`roots`.  Python truthiness makes both a missing and an empty `in_reply_to`
fall to the `roots` branch. -/
def placementOf (messages : List Msg) (m : Msg) : Option Nat :=
  match m.in_reply_to with
  | none => none
  | some p => if p = "" then none else lastIdx p messages

/-- Placement of the record at input index `i` (out-of-range indices are never
used). -/
def placeIdx (messages : List Msg) (i : Nat) : Option Nat :=
  match messages.get? i with
  | none => none
  | some m => placementOf messages m

/-- The `children` list of the record at index `j` at the end of the placement
loop, before sorting: the appends happen in input order. -/
def childrenOf (messages : List Msg) (j : Nat) : List Nat :=
  (List.range messages.length).filter (fun i => decide (placeIdx messages i = some j))

/-- The `roots` list at the end of the placement loop, before sorting. -/
def rootsOf (messages : List Msg) : List Nat :=
  (List.range messages.length).filter (fun i => decide (placeIdx messages i = none))

/-- The sort key `lambda x: x['date']` of the record at index `i`.  The
`getD 0` default is never reached on a list the embedded sort accepts (all
dates present), except on lists too short to be compared at all. -/
def keyOf (messages : List Msg) (i : Nat) : Nat :=
  ((messages.get? i).bind Msg.date).getD 0

/-- The comparison `x['date'] <= y['date']` between the records at indices
`a` and `b`. -/
def keyLE (messages : List Msg) (a b : Nat) : Prop :=
  keyOf messages a ≤ keyOf messages b

instance (messages : List Msg) : DecidableRel (keyLE messages) :=
  fun a b => Nat.decLe (keyOf messages a) (keyOf messages b)

/-- The stable ascending reordering produced by `list.sort(key=...)` when it
succeeds. -/
def sortByDate (messages : List Msg) (l : List Nat) : List Nat :=
  List.insertionSort (keyLE messages) l

/-- `l.sort(key=lambda x: x['date'])` in CPython: raises `TypeError` (here
`Except.error ()`) as soon as a `None` date is compared with anything, which
happens exactly when the list has at least two elements and one of them has a
missing date; otherwise returns the stable ascending reordering. -/
def pySortByDate (messages : List Msg) (l : List Nat) : Except Unit (List Nat) :=
  if 2 ≤ l.length ∧ l.any (fun i => ((messages.get? i).bind Msg.date).isNone)
  then .error ()
  else .ok (sortByDate messages l)

/-- Sequencing of the per-record `children` sorts: the loop stops at the first
raised exception. -/
def mapExcept (f : List Nat → Except Unit (List Nat)) :
    List (List Nat) → Except Unit (List (List Nat))
  | [] => .ok []
  | x :: xs =>
    match f x, mapExcept f xs with
    | .ok y, .ok ys => .ok (y :: ys)
    | .error e, _ => .error e
    | .ok _, .error e => .error e

/-- The observable outcome of `build_email_tree`: the final `children` list of
every input record (by input position) and the returned `roots` list. -/
structure BuildResult where
  children : List (List Nat)
  roots : List Nat
deriving DecidableEq, Repr

/-- `build_email_tree(messages)`: index by id, initialise `children`, place
every record (child of its indexed parent, else root), then sort every
`children` list and the `roots` list by date. -/
def build_email_tree (messages : List Msg) : Except Unit BuildResult :=
  match mapExcept (pySortByDate messages)
      ((List.range messages.length).map (childrenOf messages)),
    pySortByDate messages (rootsOf messages) with
  | .ok cs, .ok rs => .ok ⟨cs, rs⟩
  | .error e, _ => .error e
  | .ok _, .error e => .error e

/-- `datetime.min`, the earliest representable timestamp in the `Nat` model of
the totally ordered timestamp domain. -/
def datetime_min : Nat := 0

/-- `parse_date(msg)` from the source.  The library call
`email.utils.parsedate_to_datetime` is abstracted as the argument
`parsedate_to_dt`, with `none` standing for a raised exception (caught by the
bare `except`).  A missing `Date` header and, by Python truthiness, an empty
one both take the `if not date_str` branch. -/
def parse_date (parsedate_to_dt : String → Option Nat) (date_str : Option String) : Nat :=
  match date_str with
  | none => datetime_min
  | some s => if s = "" then datetime_min else (parsedate_to_dt s).getD datetime_min

/-- Python whitespace for `str.split()` / `str.strip()`:
space, tab, newline, carriage return, vertical tab, form feed. -/
def isPySpace (c : Char) : Bool :=
  c = ' ' || c = '\t' || c = '\n' || c = '\r' || c = '\x0B' || c = '\x0C'

/-- Splitting a character list at every character satisfying `p`, keeping
empty fields (so splitting the empty list yields one empty field), as Python's
`str.split(sep)` does. -/
def splitChars (p : Char → Bool) : List Char → List (List Char)
  | [] => [[]]
  | c :: cs =>
    if p c then [] :: splitChars p cs
    else
      match splitChars p cs with
      | [] => [[c]]
      | l :: ls => (c :: l) :: ls

/-- `s.split()` with no separator argument: split on runs of whitespace,
discarding empty fields (splitting at every whitespace character and dropping
the empty fields is the same thing). -/
def pySplit (s : String) : List String :=
  ((splitChars isPySpace s.data).filter (fun x => decide (x ≠ []))).map String.mk

/-- `l.strip()` on a string viewed as its character list: drop leading and
trailing whitespace. -/
def pyStrip (l : List Char) : List Char :=
  (((l.dropWhile isPySpace).reverse.dropWhile isPySpace).reverse)

/-- `s.strip()` on a `String`. -/
def pyStripS (s : String) : String :=
  String.mk (pyStrip s.data)

/-- The tail of `get_thread_id`:
`return msg_id.strip() if msg_id else None` (an empty header is falsy). -/
def get_thread_id_msgid (message_id : Option String) : Option String :=
  match message_id with
  | some mid => if mid = "" then none else some (pyStripS mid)
  | none => none

/-- The In-Reply-To branch of `get_thread_id`: `if in_reply_to: return
in_reply_to.strip()`, else fall through to the Message-ID branch. -/
def get_thread_id_irt (in_reply_to message_id : Option String) : Option String :=
  match in_reply_to with
  | some irt => if irt = "" then get_thread_id_msgid message_id else some (pyStripS irt)
  | none => get_thread_id_msgid message_id

/-- `get_thread_id(msg)` over the three headers it reads.  When the
`References` header is truthy (present and non-empty) the function commits to
`refs.split()[-1] if refs.split() else None` and never falls through. -/
def get_thread_id (references in_reply_to message_id : Option String) : Option String :=
  match references with
  | some refs =>
    if refs = "" then get_thread_id_irt in_reply_to message_id
    else (pySplit refs).getLast?
  | none => get_thread_id_irt in_reply_to message_id

/-- The resolver precedence in the spec's (amended) words: a present and
non-empty References header commits to the reference chain — its last entry if
the chain is non-empty, absent otherwise; else a present non-empty parent id is
returned trimmed; else a present non-empty own id is returned trimmed; else
absent. -/
def resolveThreadId_spec (references in_reply_to message_id : Option String) :
    Option String :=
  let chain : List String := pySplit (references.getD "")
  if references.getD "" ≠ "" then
    chain.getLast?
  else if in_reply_to.getD "" ≠ "" then
    some (pyStripS (in_reply_to.getD ""))
  else if message_id.getD "" ≠ "" then
    some (pyStripS (message_id.getD ""))
  else
    none

/-- `s.replace(pat, rep)` on character lists, with explicit structural fuel
(one unit per consumed character, so `s.length` always suffices): scan left to
right, replacing non-overlapping occurrences of `pat`. -/
def pyReplaceFuel (pat rep : List Char) : Nat → List Char → List Char
  | 0, s => s
  | _ + 1, [] => []
  | fuel + 1, c :: cs =>
    if pat ≠ [] ∧ (c :: cs).take pat.length = pat
    then rep ++ pyReplaceFuel pat rep fuel (cs.drop (pat.length - 1))
    else c :: pyReplaceFuel pat rep fuel cs

/-- `s.replace(pat, rep)` on character lists. -/
def pyReplace (pat rep s : List Char) : List Char :=
  pyReplaceFuel pat rep s.length s

/-- `s.split(sep)` with an explicit one-character separator: keeps empty
fields, `"".split(sep) == [""]`. -/
def pySplitOn (sep : Char) (s : List Char) : List (List Char) :=
  splitChars (fun c => c = sep) s

/-- The literal four-character text backslash-r-backslash-n. -/
def litBackslashRN : List Char := ['\\', 'r', '\\', 'n']

/-- The literal two-character text backslash-r. -/
def litBackslashR : List Char := ['\\', 'r']

/-- The line list `clean_email_text` builds for non-empty input: replace the
literal escape sequences by real newlines, split on newlines, strip every
line, drop the empty ones. -/
def cleanLines (t : List Char) : List (List Char) :=
  ((pySplitOn '\n' (pyReplace litBackslashR ['\n'] (pyReplace litBackslashRN ['\n'] t))).map
      pyStrip).filter (fun l => decide (l ≠ []))

/-- `clean_email_text(text)` on a possibly-absent body modelled as a character
list: falsy input (absent or empty) yields the empty string, otherwise the
surviving lines are rejoined with single newlines. -/
def clean_email_text (text : Option (List Char)) : List Char :=
  match text with
  | none => []
  | some t => if t = [] then [] else List.intercalate ['\n'] (cleanLines t)

/-- The character class of `re.sub(r'[\\/*?:\x22<>|]', "", filename)`:
backslash, slash, asterisk, question mark, colon, double quote, less-than,
greater-than, pipe. -/
def illegalFilenameChar (c : Char) : Bool :=
  c = '\\' || c = '/' || c = '*' || c = '?' || c = ':' || c = '"' ||
    c = '<' || c = '>' || c = '|'

/-- `sanitize_filename(filename)`: delete every character of the illegal
class, keeping everything else in order. -/
def sanitize_filename (filename : String) : String :=
  String.mk (filename.data.filter (fun c => !illegalFilenameChar c))

/-! ## Helper lemmas -/

theorem lastIdx_lt_length {p : String} : ∀ {l : List Msg} {j : Nat},
    lastIdx p l = some j → j < l.length
  | [], j, h => by simp [lastIdx] at h
  | m :: ms, j, h => by
    simp only [lastIdx] at h
    cases hm : lastIdx p ms with
    | some k =>
      rw [hm] at h
      cases h
      exact Nat.succ_lt_succ (lastIdx_lt_length hm)
    | none =>
      rw [hm] at h
      by_cases hid : m.id = some p
      · simp [hid] at h
        cases h
        exact Nat.succ_pos _
      · simp [hid] at h

theorem lastIdx_eq_none_iff {p : String} : ∀ {l : List Msg},
    lastIdx p l = none ↔ ∀ m ∈ l, m.id ≠ some p
  | [] => by simp [lastIdx]
  | m :: ms => by
    simp only [lastIdx, List.mem_cons]
    cases hm : lastIdx p ms with
    | some k =>
      simp only [reduceCtorEq, false_iff]
      intro hall
      have := (lastIdx_eq_none_iff (l := ms)).mpr (fun m' hm' => hall m' (Or.inr hm'))
      rw [this] at hm
      exact Option.noConfusion hm
    | none =>
      by_cases hid : m.id = some p
      · simp [hid]
      · rw [if_neg hid]
        constructor
        · intro _ m' hm'
          rcases hm' with rfl | hm'
          · exact hid
          · exact (lastIdx_eq_none_iff (l := ms)).mp hm m' hm'
        · intro _
          rfl

theorem pySortByDate_ok_eq {messages : List Msg} {l l' : List Nat}
    (h : pySortByDate messages l = .ok l') : l' = sortByDate messages l := by
  unfold pySortByDate at h
  split at h
  · exact absurd h (by simp)
  · cases h
    rfl

theorem pySortByDate_ok_perm {messages : List Msg} {l l' : List Nat}
    (h : pySortByDate messages l = .ok l') : l'.Perm l := by
  rw [pySortByDate_ok_eq h]
  exact List.perm_insertionSort (keyLE messages) l

theorem pySortByDate_ok_sorted {messages : List Msg} {l l' : List Nat}
    (h : pySortByDate messages l = .ok l') : l'.Pairwise (keyLE messages) := by
  rw [pySortByDate_ok_eq h]
  haveI : IsTotal Nat (keyLE messages) := ⟨fun a b => Nat.le_total _ _⟩
  haveI : IsTrans Nat (keyLE messages) := ⟨fun _ _ _ => Nat.le_trans⟩
  exact List.sorted_insertionSort (keyLE messages) l

theorem orderedInsert_filter_key (messages : List Msg) (d x : Nat) :
    ∀ l : List Nat,
      (List.orderedInsert (keyLE messages) x l).filter
          (fun i => decide (keyOf messages i = d)) =
        (if keyOf messages x = d then [x] else []) ++
          l.filter (fun i => decide (keyOf messages i = d))
  | [] => by
    by_cases hx : keyOf messages x = d <;> simp [hx]
  | y :: l => by
    simp only [List.orderedInsert]
    by_cases hr : keyLE messages x y
    · rw [if_pos hr]
      by_cases hx : keyOf messages x = d <;>
        by_cases hy : keyOf messages y = d <;>
          simp [hx, hy, List.filter_cons]
    · rw [if_neg hr]
      have hlt : keyOf messages y < keyOf messages x := Nat.lt_of_not_le hr
      by_cases hx : keyOf messages x = d
      · have hy : ¬ keyOf messages y = d := by
          intro hy
          exact Nat.lt_irrefl _ (hx ▸ hy ▸ hlt)
        simp [List.filter_cons, hy, orderedInsert_filter_key messages d x l, hx]
      · by_cases hy : keyOf messages y = d <;>
          simp [List.filter_cons, hy, orderedInsert_filter_key messages d x l, hx]

theorem sortByDate_filter_key (messages : List Msg) (d : Nat) :
    ∀ l : List Nat,
      (sortByDate messages l).filter (fun i => decide (keyOf messages i = d)) =
        l.filter (fun i => decide (keyOf messages i = d))
  | [] => rfl
  | x :: l => by
    have ih := sortByDate_filter_key messages d l
    simp only [sortByDate, List.insertionSort] at ih ⊢
    rw [orderedInsert_filter_key messages d x (List.insertionSort (keyLE messages) l), ih]
    by_cases hx : keyOf messages x = d <;> simp [hx, List.filter_cons]

theorem pySortByDate_ok_filter_key {messages : List Msg} {l l' : List Nat}
    (h : pySortByDate messages l = .ok l') (d : Nat) :
    l'.filter (fun i => decide (keyOf messages i = d)) =
      l.filter (fun i => decide (keyOf messages i = d)) := by
  rw [pySortByDate_ok_eq h]
  exact sortByDate_filter_key messages d l

theorem mapExcept_ok {f : List Nat → Except Unit (List Nat)} :
    ∀ {L : List (List Nat)} {L' : List (List Nat)},
      mapExcept f L = .ok L' → List.Forall₂ (fun a b => f a = .ok b) L L'
  | [], L', h => by
    cases h
    exact List.Forall₂.nil
  | x :: xs, L', h => by
    simp only [mapExcept] at h
    cases hfx : f x with
    | error e =>
      rw [hfx] at h
      exact absurd h (by simp)
    | ok y =>
      rw [hfx] at h
      cases hxs : mapExcept f xs with
      | error e =>
        rw [hxs] at h
        exact absurd h (by simp)
      | ok ys =>
        rw [hxs] at h
        cases h
        exact List.Forall₂.cons hfx (mapExcept_ok hxs)

theorem join_perm_of_forall₂ {L L' : List (List Nat)}
    (h : List.Forall₂ (fun a b => a.Perm b) L L') : L.flatten.Perm L'.flatten := by
  induction h with
  | nil => exact List.Perm.refl _
  | cons hab _ ih =>
    simp only [List.flatten_cons]
    exact hab.append ih

theorem build_email_tree_ok {messages : List Msg} {r : BuildResult}
    (h : build_email_tree messages = .ok r) :
    mapExcept (pySortByDate messages)
        ((List.range messages.length).map (childrenOf messages)) = .ok r.children ∧
      pySortByDate messages (rootsOf messages) = .ok r.roots := by
  unfold build_email_tree at h
  cases hc : mapExcept (pySortByDate messages)
      ((List.range messages.length).map (childrenOf messages)) with
  | error e =>
    rw [hc] at h
    exact absurd h (by simp)
  | ok cs =>
    rw [hc] at h
    cases hr : pySortByDate messages (rootsOf messages) with
    | error e =>
      rw [hr] at h
      exact absurd h (by simp)
    | ok rs =>
      rw [hr] at h
      cases h
      exact ⟨rfl, rfl⟩

theorem filter_partition_perm (π : Nat → Option Nat) :
    ∀ (J : List Nat) (l : List Nat), J.Nodup →
      (∀ i ∈ l, ∀ j, π i = some j → j ∈ J) →
      ((J.map (fun j => l.filter (fun i => decide (π i = some j)))).flatten
          ++ l.filter (fun i => decide (π i = none))).Perm l
  | [], l, _, hl => by
    have : l.filter (fun i => decide (π i = none)) = l := by
      rw [List.filter_eq_self]
      intro a ha
      cases hπ : π a with
      | none => simp
      | some j => exact absurd (hl a ha j hπ) (List.not_mem_nil j)
    simp [this]
  | j :: J', l, hJ, hl => by
    have hj : j ∉ J' := (List.nodup_cons.mp hJ).1
    have hJ' : J'.Nodup := (List.nodup_cons.mp hJ).2
    set l' := l.filter (fun i => !decide (π i = some j)) with hl'
    have hbucket : ∀ j' ∈ J',
        l'.filter (fun i => decide (π i = some j')) =
          l.filter (fun i => decide (π i = some j')) := by
      intro j' hj'
      rw [hl', List.filter_filter]
      refine List.filter_congr ?_
      intro i _
      by_cases hi : π i = some j'
      · have hjj : j' ≠ j := fun h => hj (h ▸ hj')
        simp [hi, hjj]
      · simp [hi]
    have hnone : l'.filter (fun i => decide (π i = none)) =
        l.filter (fun i => decide (π i = none)) := by
      rw [hl', List.filter_filter]
      refine List.filter_congr ?_
      intro i _
      by_cases hi : π i = none
      · simp [hi]
      · simp [hi]
    have hmap : J'.map (fun j' => l'.filter (fun i => decide (π i = some j'))) =
        J'.map (fun j' => l.filter (fun i => decide (π i = some j'))) :=
      List.map_congr_left hbucket
    have hcond : ∀ i ∈ l', ∀ j'', π i = some j'' → j'' ∈ J' := by
      intro i hi j'' hπ
      have hil : i ∈ l := (List.mem_filter.mp hi).1
      have hne : ¬ (π i = some j) := by
        have := (List.mem_filter.mp hi).2
        simpa using this
      have := hl i hil j'' hπ
      rcases List.mem_cons.mp this with rfl | h
      · exact absurd hπ hne
      · exact h
    have ih := filter_partition_perm π J' l' hJ' hcond
    have step1 : ((j :: J').map (fun j' =>
          l.filter (fun i => decide (π i = some j')))).flatten
          ++ l.filter (fun i => decide (π i = none))
        = l.filter (fun i => decide (π i = some j)) ++
            ((J'.map (fun j' => l'.filter (fun i => decide (π i = some j')))).flatten
              ++ l'.filter (fun i => decide (π i = none))) := by
      rw [hmap, hnone, List.map_cons, List.flatten_cons, List.append_assoc]
    rw [step1]
    refine (ih.append_left _).trans ?_
    rw [hl']
    exact List.filter_append_perm _ l

theorem placeIdx_of_get {messages : List Msg} {i : Nat} {m : Msg}
    (hm : messages.get? i = some m) :
    placeIdx messages i = placementOf messages m := by
  unfold placeIdx
  rw [hm]

theorem placeIdx_of_get_none {messages : List Msg} {i : Nat}
    (hm : messages.get? i = none) : placeIdx messages i = none := by
  unfold placeIdx
  rw [hm]

theorem placementOf_irt {messages : List Msg} {m : Msg} {p : String}
    (hirt : m.in_reply_to = some p) :
    placementOf messages m = if p = "" then none else lastIdx p messages := by
  unfold placementOf
  rw [hirt]

theorem placementOf_irt_none {messages : List Msg} {m : Msg}
    (hirt : m.in_reply_to = none) : placementOf messages m = none := by
  unfold placementOf
  rw [hirt]

theorem placeIdx_some_lt {messages : List Msg} {i j : Nat}
    (h : placeIdx messages i = some j) : j < messages.length := by
  cases hm : messages.get? i with
  | none =>
    rw [placeIdx_of_get_none hm] at h
    exact absurd h (by simp)
  | some m =>
    rw [placeIdx_of_get hm] at h
    cases hirt : m.in_reply_to with
    | none =>
      rw [placementOf_irt_none hirt] at h
      exact absurd h (by simp)
    | some p =>
      rw [placementOf_irt hirt] at h
      split at h
      · exact absurd h (by simp)
      · exact lastIdx_lt_length h

theorem buckets_partition (messages : List Msg) :
    (((List.range messages.length).map (childrenOf messages)).flatten
        ++ rootsOf messages).Perm (List.range messages.length) := by
  have hcond : ∀ i ∈ List.range messages.length, ∀ j,
      placeIdx messages i = some j → j ∈ List.range messages.length := by
    intro i _ j hj
    exact List.mem_range.mpr (placeIdx_some_lt hj)
  have := filter_partition_perm (placeIdx messages) (List.range messages.length)
    (List.range messages.length) (List.nodup_range _) hcond
  simpa [childrenOf, rootsOf] using this

/-- C1: every record handed to the Builder ends up exactly once in the output
structure: the multiset union of all the `children` lists together with the
returned root list is exactly the multiset of input records (tracked by input
position), with nothing lost and nothing duplicated. -/
theorem buildForest_no_loss_no_duplication (messages : List Msg) (r : BuildResult)
    (h : build_email_tree messages = .ok r) :
    (↑(r.children.flatten ++ r.roots) : Multiset Nat) =
      ↑(List.range messages.length) := by
  obtain ⟨hc, hr⟩ := build_email_tree_ok h
  have hperm2 : List.Forall₂ (fun a b => a.Perm b)
      ((List.range messages.length).map (childrenOf messages)) r.children :=
    (mapExcept_ok hc).imp (fun _ _ hab => (pySortByDate_ok_perm hab).symm)
  have hflat := join_perm_of_forall₂ hperm2
  have hroots := pySortByDate_ok_perm hr
  have hall : (r.children.flatten ++ r.roots).Perm (List.range messages.length) :=
    (hflat.symm.append hroots).trans (buckets_partition messages)
  exact Multiset.coe_eq_coe.mpr hall

/-- Witness for C1 at the three-record example of the spec (root `m1`, two
replies `m2`, `m3`). -/
theorem buildForest_no_loss_no_duplication_witness :
    (↑((⟨[[2, 1], [], []], [0]⟩ : BuildResult).children.flatten
        ++ (⟨[[2, 1], [], []], [0]⟩ : BuildResult).roots) : Multiset Nat) =
      ↑(List.range ([⟨some "m1", none, some 10⟩, ⟨some "m2", some "m1", some 20⟩,
          ⟨some "m3", some "m1", some 15⟩] : List Msg).length) :=
  buildForest_no_loss_no_duplication
    [⟨some "m1", none, some 10⟩, ⟨some "m2", some "m1", some 20⟩,
      ⟨some "m3", some "m1", some 15⟩] ⟨[[2, 1], [], []], [0]⟩ rfl

theorem mem_roots_iff {messages : List Msg} {r : BuildResult}
    (h : build_email_tree messages = .ok r) (i : Nat) :
    i ∈ r.roots ↔ i < messages.length ∧ placeIdx messages i = none := by
  obtain ⟨-, hr⟩ := build_email_tree_ok h
  rw [(pySortByDate_ok_perm hr).mem_iff]
  unfold rootsOf
  simp [List.mem_filter, List.mem_range]

/-- C2 (amended): a record whose parent id is present, non-empty and matches
no record's id in the same call is a root; but a record whose parent id equals
its own id finds itself in the prebuilt index, so a sole self-referencing
record is appended to its own `children` list and the returned root list is
empty. -/
theorem orphan_is_root_self_reference_is_own_child :
    (∀ (messages : List Msg) (i : Nat) (m : Msg) (p : String) (r : BuildResult),
        build_email_tree messages = .ok r → messages.get? i = some m →
        m.in_reply_to = some p → p ≠ "" → (∀ m' ∈ messages, m'.id ≠ some p) →
        i ∈ r.roots) ∧
      build_email_tree [⟨some "x", some "x", some 0⟩] = .ok ⟨[[0]], []⟩ := by
  constructor
  · intro messages i m p r hb hm hirt hp hno
    rw [mem_roots_iff hb]
    obtain ⟨hlt, -⟩ := List.get?_eq_some.mp hm
    refine ⟨hlt, ?_⟩
    rw [placeIdx_of_get hm, placementOf_irt hirt, if_neg hp]
    exact lastIdx_eq_none_iff.mpr hno
  · rfl

/-- Witness for C2 (amended): a single record replying to the unknown id
`zz` is returned as the only root. -/
theorem orphan_is_root_self_reference_is_own_child_witness :
    0 ∈ (⟨[[]], [0]⟩ : BuildResult).roots :=
  orphan_is_root_self_reference_is_own_child.1
    [⟨some "a", some "zz", some 0⟩] 0 ⟨some "a", some "zz", some 0⟩ "zz"
    ⟨[[]], [0]⟩ rfl rfl rfl (by decide) (by decide)

/-- C2 counterexample: the single record with id `x` and parent id `x`
(self-reference) does not build as a root — the root list comes back empty and
the record sits in its own `children` list. -/
theorem self_reference_record_is_not_a_root :
    build_email_tree [⟨some "x", some "x", some 0⟩] = .ok ⟨[[0]], []⟩ ∧
      (⟨[[0]], []⟩ : BuildResult).roots = [] ∧
      0 ∈ (⟨[[0]], []⟩ : BuildResult).children.flatten :=
  ⟨rfl, rfl, by decide⟩

/-- C5 (amended): a record is a root if and only if its parent id is absent,
or is the empty string (Python truthiness sends it to the root branch even
when some record's id is the empty string), or matches no record's id in the
same call.  In particular every record with absent parent id is a root. -/
theorem root_iff_parent_absent_empty_or_unmatched (messages : List Msg)
    (r : BuildResult) (i : Nat) (m : Msg)
    (hb : build_email_tree messages = .ok r) (hm : messages.get? i = some m) :
    i ∈ r.roots ↔
      (m.in_reply_to = none ∨ m.in_reply_to = some "" ∨
        ∃ p, m.in_reply_to = some p ∧ ∀ m' ∈ messages, m'.id ≠ some p) := by
  rw [mem_roots_iff hb]
  obtain ⟨hlt, -⟩ := List.get?_eq_some.mp hm
  simp only [hlt, true_and]
  rw [placeIdx_of_get hm]
  cases hirt : m.in_reply_to with
  | none =>
    simp [placementOf_irt_none hirt, hirt]
  | some p =>
    rw [placementOf_irt hirt]
    by_cases hp : p = ""
    · subst hp
      simp
    · rw [if_neg hp, lastIdx_eq_none_iff]
      simp [hp]

/-- Witness for C5 (amended) at a single record with absent parent id. -/
theorem root_iff_parent_absent_empty_or_unmatched_witness :
    0 ∈ (⟨[[]], [0]⟩ : BuildResult).roots ↔
      ((⟨some "r1", none, some 0⟩ : Msg).in_reply_to = none ∨
        (⟨some "r1", none, some 0⟩ : Msg).in_reply_to = some "" ∨
        ∃ p, (⟨some "r1", none, some 0⟩ : Msg).in_reply_to = some p ∧
          ∀ m' ∈ [(⟨some "r1", none, some 0⟩ : Msg)], m'.id ≠ some p) :=
  root_iff_parent_absent_empty_or_unmatched [⟨some "r1", none, some 0⟩]
    ⟨[[]], [0]⟩ 0 ⟨some "r1", none, some 0⟩ rfl rfl

/-- C5 counterexample: record 1's parent id is the empty string — present,
and matching record 0's id (also the empty string) — yet record 1 is returned
as a root, because the empty string is falsy in the placement test. -/
theorem empty_parent_matching_empty_id_is_still_a_root :
    build_email_tree [⟨some "", none, some 0⟩, ⟨some "y", some "", some 1⟩] =
        .ok ⟨[[], []], [0, 1]⟩ ∧
      (⟨some "", none, some 0⟩ : Msg).id = some "" ∧
      (⟨some "y", some "", some 1⟩ : Msg).in_reply_to = some "" ∧
      1 ∈ (⟨[[], []], [0, 1]⟩ : BuildResult).roots :=
  ⟨rfl, rfl, rfl, by decide⟩

/-- C3 counterexample: for the two-record parent cycle `a ↔ b`, the built
structure contains record 1 in record 0's `children` list AND record 0 in
record 1's `children` list — the mutual containment the claim rules out — and
the root list is empty. -/
theorem two_cycle_mutual_containment_concrete :
    build_email_tree [⟨some "a", some "b", some 0⟩, ⟨some "b", some "a", some 1⟩] =
        .ok ⟨[[1], [0]], []⟩ ∧
      1 ∈ ((⟨[[1], [0]], []⟩ : BuildResult).children.getD 0 []) ∧
      0 ∈ ((⟨[[1], [0]], []⟩ : BuildResult).children.getD 1 []) :=
  ⟨rfl, by decide, by decide⟩

/-- C3 (amended): for any two records forming a parent cycle (distinct
non-empty ids, each naming the other as parent), the Builder appends each to
the other's `children` list — mutual containment does occur — and neither is a
root; each record still occurs exactly once among all `children` lists. -/
theorem two_cycle_mutual_containment (a b : String) (da db : Option Nat)
    (ha : a ≠ "") (hb : b ≠ "") (hab : a ≠ b) :
    build_email_tree [⟨some a, some b, da⟩, ⟨some b, some a, db⟩] =
      .ok ⟨[[1], [0]], []⟩ := by
  have hLb : lastIdx b [⟨some a, some b, da⟩, ⟨some b, some a, db⟩] = some 1 := by
    simp [lastIdx]
  have hLa : lastIdx a [⟨some a, some b, da⟩, ⟨some b, some a, db⟩] = some 0 := by
    simp [lastIdx, Ne.symm hab]
  have h0 : placeIdx [⟨some a, some b, da⟩, ⟨some b, some a, db⟩] 0 = some 1 := by
    rw [placeIdx_of_get
        (show ([⟨some a, some b, da⟩, ⟨some b, some a, db⟩] : List Msg).get? 0 =
          some ⟨some a, some b, da⟩ from rfl),
      placementOf_irt (show (⟨some a, some b, da⟩ : Msg).in_reply_to = some b from rfl),
      if_neg hb, hLb]
  have h1 : placeIdx [⟨some a, some b, da⟩, ⟨some b, some a, db⟩] 1 = some 0 := by
    rw [placeIdx_of_get
        (show ([⟨some a, some b, da⟩, ⟨some b, some a, db⟩] : List Msg).get? 1 =
          some ⟨some b, some a, db⟩ from rfl),
      placementOf_irt (show (⟨some b, some a, db⟩ : Msg).in_reply_to = some a from rfl),
      if_neg ha, hLa]
  have hc0 : childrenOf [⟨some a, some b, da⟩, ⟨some b, some a, db⟩] 0 = [1] := by
    unfold childrenOf
    rw [show List.range ([⟨some a, some b, da⟩, ⟨some b, some a, db⟩] : List Msg).length =
        [0, 1] from rfl]
    rw [List.filter_cons, List.filter_cons, List.filter_nil, h0, h1]
    simp
  have hc1 : childrenOf [⟨some a, some b, da⟩, ⟨some b, some a, db⟩] 1 = [0] := by
    unfold childrenOf
    rw [show List.range ([⟨some a, some b, da⟩, ⟨some b, some a, db⟩] : List Msg).length =
        [0, 1] from rfl]
    rw [List.filter_cons, List.filter_cons, List.filter_nil, h0, h1]
    simp
  have hroots : rootsOf [⟨some a, some b, da⟩, ⟨some b, some a, db⟩] = [] := by
    unfold rootsOf
    rw [show List.range ([⟨some a, some b, da⟩, ⟨some b, some a, db⟩] : List Msg).length =
        [0, 1] from rfl]
    rw [List.filter_cons, List.filter_cons, List.filter_nil, h0, h1]
    simp
  unfold build_email_tree
  rw [show (List.range ([⟨some a, some b, da⟩, ⟨some b, some a, db⟩] : List Msg).length).map
      (childrenOf [⟨some a, some b, da⟩, ⟨some b, some a, db⟩]) =
      [childrenOf [⟨some a, some b, da⟩, ⟨some b, some a, db⟩] 0,
        childrenOf [⟨some a, some b, da⟩, ⟨some b, some a, db⟩] 1] from rfl,
    hc0, hc1, hroots]
  rfl

/-- Witness for C3 (amended) at the concrete ids `p`, `q`
with both timestamps missing (the singleton sorts never compare them). -/
theorem two_cycle_mutual_containment_witness :
    build_email_tree [⟨some "p", some "q", none⟩, ⟨some "q", some "p", none⟩] =
      .ok ⟨[[1], [0]], []⟩ :=
  two_cycle_mutual_containment "p" "q" none none (by decide) (by decide) (by decide)

/-- C7: every `children` list and the root list that `build_email_tree`
returns is non-decreasing by timestamp, and records with equal timestamps keep
the relative order in which the sort received them: filtering an output list
down to any one timestamp key gives exactly the same sequence as filtering the
corresponding pre-sort (input-ordered) list.  All functions involved are
deterministic, so output order is determined by input order. -/
theorem buildForest_sorted_and_stable (messages : List Msg) (r : BuildResult)
    (hb : build_email_tree messages = .ok r) :
    (r.roots.Pairwise (keyLE messages) ∧
      ∀ d, r.roots.filter (fun i => decide (keyOf messages i = d)) =
        (rootsOf messages).filter (fun i => decide (keyOf messages i = d))) ∧
      List.Forall₂ (fun j c =>
          c.Pairwise (keyLE messages) ∧
          ∀ d, c.filter (fun i => decide (keyOf messages i = d)) =
            (childrenOf messages j).filter (fun i => decide (keyOf messages i = d)))
        (List.range messages.length) r.children := by
  obtain ⟨hc, hr⟩ := build_email_tree_ok hb
  refine ⟨⟨pySortByDate_ok_sorted hr, fun d => pySortByDate_ok_filter_key hr d⟩, ?_⟩
  have h3 : List.Forall₂
      (fun j c => pySortByDate messages (childrenOf messages j) = .ok c)
      (List.range messages.length) r.children :=
    List.forall₂_map_left_iff.mp (mapExcept_ok hc)
  exact h3.imp (fun _ _ hjc =>
    ⟨pySortByDate_ok_sorted hjc, fun d => pySortByDate_ok_filter_key hjc d⟩)

/-- Witness for C7 at the three-record example: the sorted child list `[2, 1]`
of the root is non-decreasing by key, and filtering it at timestamp 15 returns
exactly the filter of the pre-sort child list `[1, 2]`. -/
theorem buildForest_sorted_and_stable_witness :
    ([0] : List Nat).Pairwise
        (keyLE [⟨some "m1", none, some 10⟩, ⟨some "m2", some "m1", some 20⟩,
          ⟨some "m3", some "m1", some 15⟩]) ∧
      ([2, 1] : List Nat).filter (fun i => decide
          (keyOf [⟨some "m1", none, some 10⟩, ⟨some "m2", some "m1", some 20⟩,
            ⟨some "m3", some "m1", some 15⟩] i = 15)) =
        (childrenOf [⟨some "m1", none, some 10⟩, ⟨some "m2", some "m1", some 20⟩,
            ⟨some "m3", some "m1", some 15⟩] 0).filter (fun i => decide
          (keyOf [⟨some "m1", none, some 10⟩, ⟨some "m2", some "m1", some 20⟩,
            ⟨some "m3", some "m1", some 15⟩] i = 15)) := by
  have h := buildForest_sorted_and_stable
    [⟨some "m1", none, some 10⟩, ⟨some "m2", some "m1", some 20⟩,
      ⟨some "m3", some "m1", some 15⟩] ⟨[[2, 1], [], []], [0]⟩ rfl
  refine ⟨h.1.1, ?_⟩
  have h2 := h.2
  rw [show List.range ([⟨some "m1", none, some 10⟩, ⟨some "m2", some "m1", some 20⟩,
      ⟨some "m3", some "m1", some 15⟩] : List Msg).length = [0, 1, 2] from rfl] at h2
  rcases h2 with _ | ⟨⟨-, hstable⟩, -⟩
  exact hstable 15

/-- C4 counterexample: two root records, one with a missing timestamp — the
root sort compares `None` with a value and the build raises instead of sorting
the record as earliest. -/
theorem missing_timestamp_makes_build_raise :
    build_email_tree [⟨some "a", none, none⟩, ⟨some "b", none, some 5⟩] =
      .error () := rfl

/-- C4 (amended): `parse_date` does map a missing, empty or unparsable `Date`
header to `datetime.min`, the earliest value, and never raises; but
`build_email_tree` keys its sorts on the raw `date` field without applying
`parse_date`, so a list of two or more records one of which lacks a timestamp
makes the sort raise; whenever a sort succeeds it returns a permutation, so no
record is ever excluded. -/
theorem parse_date_earliest_but_sort_raises :
    (∀ q : String → Option Nat, parse_date q none = datetime_min) ∧
      (∀ q : String → Option Nat, parse_date q (some "") = datetime_min) ∧
      (∀ (q : String → Option Nat) (s : String), q s = none →
        parse_date q (some s) = datetime_min) ∧
      (∀ (q : String → Option Nat) (d : Option String),
        datetime_min ≤ parse_date q d) ∧
      (∀ (messages : List Msg) (l : List Nat), 2 ≤ l.length →
        (∃ i ∈ l, (messages.get? i).bind Msg.date = none) →
        pySortByDate messages l = .error ()) ∧
      (∀ (messages : List Msg) (l l' : List Nat),
        pySortByDate messages l = .ok l' → l'.Perm l) := by
  refine ⟨fun q => rfl, fun q => rfl, ?_, ?_, ?_, ?_⟩
  · intro q s hq
    by_cases hs : s = ""
    · subst hs
      rfl
    · simp [parse_date, hs, hq]
  · intro q d
    exact Nat.zero_le _
  · intro messages l hlen hex
    unfold pySortByDate
    rw [if_pos]
    refine ⟨hlen, ?_⟩
    rw [List.any_eq_true]
    obtain ⟨i, hi, hnone⟩ := hex
    exact ⟨i, hi, by rw [hnone]; rfl⟩
  · intro messages l l' h
    exact pySortByDate_ok_perm h

/-- Witness for C4 (amended): the unparsable header defaults to the earliest
value, the concrete two-record sort with a missing date raises, and a
successful concrete sort permutes its input. -/
theorem parse_date_earliest_but_sort_raises_witness :
    parse_date (fun _ => none) (some "bogus") = datetime_min ∧
      pySortByDate [⟨some "a", none, none⟩, ⟨some "b", none, some 5⟩] [0, 1] =
        .error () ∧
      ([0, 1] : List Nat).Perm [1, 0] := by
  refine ⟨parse_date_earliest_but_sort_raises.2.2.1 (fun _ => none) "bogus" rfl,
    parse_date_earliest_but_sort_raises.2.2.2.2.1
      [⟨some "a", none, none⟩, ⟨some "b", none, some 5⟩] [0, 1] (by decide)
      ⟨0, by decide, rfl⟩, ?_⟩
  exact parse_date_earliest_but_sort_raises.2.2.2.2.2
    [⟨some "b", none, some 5⟩, ⟨some "a", none, some 7⟩] [1, 0] [0, 1] rfl

theorem get_thread_id_msgid_eq (message_id : Option String) :
    get_thread_id_msgid message_id =
      (if message_id.getD "" ≠ "" then some (pyStripS (message_id.getD ""))
        else none) := by
  cases message_id with
  | none => simp [get_thread_id_msgid]
  | some mid => by_cases h : mid = "" <;> simp [get_thread_id_msgid, h]

theorem get_thread_id_irt_eq (in_reply_to message_id : Option String) :
    get_thread_id_irt in_reply_to message_id =
      (if in_reply_to.getD "" ≠ "" then some (pyStripS (in_reply_to.getD ""))
        else if message_id.getD "" ≠ "" then some (pyStripS (message_id.getD ""))
        else none) := by
  cases in_reply_to with
  | none => simp [get_thread_id_irt, get_thread_id_msgid_eq]
  | some irt =>
    by_cases h : irt = "" <;> simp [get_thread_id_irt, h, get_thread_id_msgid_eq]

/-- C6 counterexample: a whitespace-only References header is a non-empty
string, so the resolver commits to the reference chain; the chain is empty, so
it returns absent — not the present parent id `X` the claimed precedence
demands (which it does return once the header is wholly absent). -/
theorem whitespace_references_shadow_parent :
    pySplit " " = [] ∧
      get_thread_id (some " ") (some "X") (some "Y") = none ∧
      get_thread_id none (some "X") (some "Y") = some "X" :=
  ⟨rfl, rfl, rfl⟩

/-- C6 (amended): the resolver coincides with the spec-side precedence in
which a present non-empty References header always commits to the chain
(returning absent on a whitespace-only header rather than consulting the
parent id), a present parent id or own id counts only when non-empty, and the
returned parent id / own id are trimmed; the chain `A B C` resolves to its
last entry `C`. -/
theorem get_thread_id_follows_precedence :
    (∀ references in_reply_to message_id : Option String,
        get_thread_id references in_reply_to message_id =
          resolveThreadId_spec references in_reply_to message_id) ∧
      get_thread_id (some "A B C") none none = some "C" ∧
      get_thread_id none (some " X ") none = some "X" ∧
      get_thread_id none none (some " Y ") = some "Y" ∧
      get_thread_id none none none = none := by
  refine ⟨?_, rfl, rfl, rfl, rfl⟩
  intro references irt mid
  cases references with
  | none => simp [get_thread_id, resolveThreadId_spec, get_thread_id_irt_eq]
  | some refs =>
    by_cases h : refs = "" <;>
      simp [get_thread_id, resolveThreadId_spec, h, get_thread_id_irt_eq]

theorem pyStrip_eq (l : List Char) :
    pyStrip l = List.rdropWhile isPySpace (l.dropWhile isPySpace) := rfl

theorem dropWhile_eq_self_of_prefix {p : Char → Bool} {b c : List Char}
    (hb : b.dropWhile p = b) (hc : c <+: b) : c.dropWhile p = c := by
  obtain ⟨t, ht⟩ := hc
  cases c with
  | nil => rfl
  | cons x c' =>
    cases hpx : p x with
    | false => simp [List.dropWhile_cons, hpx]
    | true =>
      exfalso
      rw [← ht] at hb
      simp only [List.cons_append, List.dropWhile_cons, hpx, if_true] at hb
      have hle := (List.dropWhile_suffix (l := c' ++ t) p).sublist.length_le
      rw [hb] at hle
      simp at hle

theorem pyStrip_idem (l : List Char) : pyStrip (pyStrip l) = pyStrip l := by
  rw [pyStrip_eq, pyStrip_eq]
  have h2 : (List.rdropWhile isPySpace (l.dropWhile isPySpace)).dropWhile isPySpace =
      List.rdropWhile isPySpace (l.dropWhile isPySpace) :=
    dropWhile_eq_self_of_prefix (List.dropWhile_idempotent _ _) (List.rdropWhile_prefix _ _)
  rw [h2, List.rdropWhile_idempotent]

theorem mem_pyStrip {a : Char} {l : List Char} (h : a ∈ pyStrip l) : a ∈ l := by
  rw [pyStrip_eq] at h
  exact (List.dropWhile_suffix isPySpace).sublist.subset
    ((List.rdropWhile_prefix _ _).sublist.subset h)

theorem splitChars_no_sep {p : Char → Bool} :
    ∀ {s x : List Char}, x ∈ splitChars p s → ∀ c ∈ x, p c = false
  | [], x, hx, c, hc => by
    simp only [splitChars, List.mem_singleton] at hx
    subst hx
    exact absurd hc (List.not_mem_nil c)
  | a :: s, x, hx, c, hc => by
    by_cases hpa : p a
    · simp only [splitChars, if_pos hpa, List.mem_cons] at hx
      rcases hx with rfl | hx
      · exact absurd hc (List.not_mem_nil c)
      · exact splitChars_no_sep hx c hc
    · simp only [splitChars, if_neg hpa] at hx
      cases hsp : splitChars p s with
      | nil =>
        rw [hsp] at hx
        simp only [List.mem_singleton] at hx
        subst hx
        rcases List.mem_cons.mp hc with rfl | hc'
        · simpa using hpa
        · exact absurd hc' (List.not_mem_nil c)
      | cons l ls =>
        rw [hsp] at hx
        rcases List.mem_cons.mp hx with rfl | hx'
        · rcases List.mem_cons.mp hc with rfl | hc'
          · simpa using hpa
          · refine splitChars_no_sep (s := s) ?_ c hc'
            rw [hsp]
            exact List.mem_cons_self l ls
        · refine splitChars_no_sep (s := s) ?_ c hc
          rw [hsp]
          exact List.mem_cons_of_mem l hx'

/-- C8: the normalizer turns the literal escape texts backslash-r-backslash-n
and backslash-r into real newlines, strips every resulting line, drops the
empty lines entirely and rejoins the survivors with single newlines; absent or
empty input yields empty output, and the spec's concrete example holds.  Every
surviving line is non-empty, already stripped, and contains no newline. -/
theorem clean_email_text_spec :
    clean_email_text none = [] ∧
      clean_email_text (some []) = [] ∧
      clean_email_text (some ("line1\\r\\n  \\r\\nline2  ".data)) =
        "line1\nline2".data ∧
      (∀ t, clean_email_text (some t) =
        if t = [] then [] else List.intercalate ['\n'] (cleanLines t)) ∧
      (∀ t l, l ∈ cleanLines t → l ≠ [] ∧ pyStrip l = l ∧ '\n' ∉ l) := by
  refine ⟨rfl, rfl, rfl, fun t => rfl, ?_⟩
  intro t l hl
  unfold cleanLines pySplitOn at hl
  rw [List.mem_filter] at hl
  obtain ⟨hmem, hne⟩ := hl
  have hne' : l ≠ [] := by simpa using hne
  obtain ⟨l₀, hl₀, rfl⟩ := List.mem_map.mp hmem
  refine ⟨hne', pyStrip_idem l₀, ?_⟩
  intro hnl
  have h1 : '\n' ∈ l₀ := mem_pyStrip hnl
  have h2 := splitChars_no_sep hl₀ '\n' h1
  simp at h2

/-- Witness for C8 at the one-line body `a`: its single surviving line is
non-empty, stripped, and newline-free. -/
theorem clean_email_text_spec_witness :
    (['a'] : List Char) ≠ [] ∧ pyStrip ['a'] = ['a'] ∧ '\n' ∉ (['a'] : List Char) :=
  clean_email_text_spec.2.2.2.2 "a".data ['a'] (by decide)

/-- C9: the sanitizer deletes exactly the characters backslash, slash,
asterisk, question mark, colon, double quote, less-than, greater-than and
pipe, and passes every other character through unchanged and in order
(non-ASCII included); the spec's example and the empty string behave as
stated. -/
theorem sanitize_filename_spec :
    (∀ s : String, (sanitize_filename s).data =
        s.data.filter (fun c => !illegalFilenameChar c)) ∧
      (∀ (s : String) (c : Char), c ∈ (sanitize_filename s).data →
        illegalFilenameChar c = false) ∧
      (∀ s : String, (sanitize_filename s).data.Sublist s.data) ∧
      sanitize_filename "a:b/c*d?.txt" = "abcd.txt" ∧
      sanitize_filename "" = "" ∧
      sanitize_filename "абв<>.txt" = "абв.txt" := by
  refine ⟨fun s => rfl, ?_, ?_, rfl, rfl, rfl⟩
  · intro s c hc
    have h := (List.mem_filter.mp hc).2
    simpa using h
  · intro s
    exact List.filter_sublist _

/-- Witness for C9: the colon of the example input is gone from the output. -/
theorem sanitize_filename_spec_witness :
    illegalFilenameChar 'a' = false :=
  sanitize_filename_spec.2.1 "a:b/c*d?.txt" 'a' (by decide)

/-- C10: the sanitizer is idempotent — deleting the illegal characters can
never reintroduce one, so a second pass changes nothing. -/
theorem sanitize_filename_idempotent :
    ∀ s : String, sanitize_filename (sanitize_filename s) = sanitize_filename s := by
  intro s
  refine congrArg String.mk ?_
  show (s.data.filter (fun c => !illegalFilenameChar c)).filter
      (fun c => !illegalFilenameChar c) =
    s.data.filter (fun c => !illegalFilenameChar c)
  rw [List.filter_filter]
  refine List.filter_congr ?_
  intro a _
  exact Bool.and_self _
